import Mathlib

/-!
# Verification of the autoCME extraction and idempotent-load pipeline

A shallow embedding of the core of the autoCME repository
(`src/parsers.py` and `src/database.py`): the normalization primitives
(`BaseParser.clean_numeric_string`, `BaseParser.parse_date_string`), the
inventory table extractor (`InventoryParser`), the delivery-notice
line-scanning extractor (`DeliveryNoticeParser`), and the SQLite storage
layer (`DatabaseManager`), together with theorems settling the frozen
claims about them.

Python strings are embedded as `List Char`; documents are embedded after
the file/PDF I/O boundary (an inventory file is its grid of cells, a PDF
page is its list of extracted text lines), which is where every claim
lives.  Whitespace predicates model the ASCII part of Python's `str.strip`
and the regex class `\s`; every input any claim touches is ASCII.
-/

namespace AutoCME

/-! ## Character and list primitives -/

/-- ASCII whitespace, the characters Python's `str.strip` and the regex
class `\s` treat as whitespace on ASCII input: space, tab, newline,
carriage return, vertical tab, form feed. -/
def pyWs (c : Char) : Bool :=
  c = ' ' || c = '\t' || c = '\n' || c = '\r' || c.toNat = 11 || c.toNat = 12

/-- Python `str.strip()`: drop whitespace from both ends. -/
def pyStrip (cs : List Char) : List Char :=
  ((cs.dropWhile pyWs).reverse.dropWhile pyWs).reverse

/-- Python `str.lower()` on ASCII: lowercase every character. -/
def lowerStr (cs : List Char) : List Char := cs.map Char.toLower

/-- Python `str.upper()` on ASCII: uppercase every character. -/
def upperStr (cs : List Char) : List Char := cs.map Char.toUpper

/-- Python's substring test `needle in hay`: does `needle` occur
contiguously inside `hay`? -/
def containsSub (hay needle : List Char) : Bool :=
  needle.isPrefixOf hay ||
    match hay with
    | [] => false
    | _ :: t => containsSub t needle

/-- The numeric value of a list of decimal digit characters
(Python `int` applied to a digit run; leading zeros allowed). -/
def digitsToNat (cs : List Char) : Nat :=
  cs.foldl (fun n c => 10 * n + (c.toNat - 48)) 0

/-- Helper for `findAllNums`: `cur` carries the value of the digit run
in progress (`none` when the previous character was not a digit). -/
def findAllNumsAux : Option Nat → List Char → List Nat
  | cur, [] => cur.toList
  | cur, c :: rest =>
    if c.isDigit then
      findAllNumsAux (some (cur.getD 0 * 10 + (c.toNat - 48))) rest
    else
      cur.toList ++ findAllNumsAux none rest

/-- `re.findall(r'\d+', s)` followed by `int(...)` on each match: the
values of the maximal digit runs of `s`, in order. -/
def findAllNums (cs : List Char) : List Nat := findAllNumsAux none cs

/-! ## `BaseParser.parse_date_string`

The Python method strips its input and tries six `datetime.strptime`
formats in a fixed order, returning the first success rendered with
`strftime("%Y-%m-%d")`.  Each format is embedded as a function
`List Char → Option YMD` with CPython `_strptime` matching semantics:
the whole string must be consumed, `%d`/`%m` accept one or two digits
(with the value bounds the `_strptime` regex imposes), `%Y` is exactly
four digits, `%B`/`%b` match English month names case-insensitively,
a literal space in the format matches one or more whitespace characters,
and the resulting calendar date must be valid (`datetime` raises on an
impossible day such as February 30, which `parse_date_string` catches
and treats as a format failure). -/

structure YMD where
  y : Nat
  m : Nat
  d : Nat
deriving DecidableEq, Repr

/-- `_strptime`'s `%d`: `(3[01]|[12]\d|0[1-9]|[1-9])`, alternatives in
regex order.  In each of the six formats the token after `%d` is a
non-digit literal or the end of the string, so the regex engine's
backtracking between alternatives never changes the outcome and the
first-match choice below is exact. -/
def parseDay : List Char → Option (Nat × List Char)
  | c1 :: c2 :: rest =>
    if c1 = '3' ∧ (c2 = '0' ∨ c2 = '1') then some (30 + (c2.toNat - 48), rest)
    else if (c1 = '1' ∨ c1 = '2') ∧ c2.isDigit then
      some ((c1.toNat - 48) * 10 + (c2.toNat - 48), rest)
    else if c1 = '0' ∧ ('1' ≤ c2 ∧ c2 ≤ '9') then some (c2.toNat - 48, rest)
    else if '1' ≤ c1 ∧ c1 ≤ '9' then some (c1.toNat - 48, c2 :: rest)
    else none
  | [c1] =>
    if '1' ≤ c1 ∧ c1 ≤ '9' then some (c1.toNat - 48, []) else none
  | [] => none

/-- `_strptime`'s `%m`: `(1[0-2]|0[1-9]|[1-9])`, same convention as
`parseDay`. -/
def parseMonthNum : List Char → Option (Nat × List Char)
  | c1 :: c2 :: rest =>
    if c1 = '1' ∧ ('0' ≤ c2 ∧ c2 ≤ '2') then some (10 + (c2.toNat - 48), rest)
    else if c1 = '0' ∧ ('1' ≤ c2 ∧ c2 ≤ '9') then some (c2.toNat - 48, rest)
    else if '1' ≤ c1 ∧ c1 ≤ '9' then some (c1.toNat - 48, c2 :: rest)
    else none
  | [c1] =>
    if '1' ≤ c1 ∧ c1 ≤ '9' then some (c1.toNat - 48, []) else none
  | [] => none

/-- `_strptime`'s `%Y`: exactly four digits. -/
def parseYear4 : List Char → Option (Nat × List Char)
  | a :: b :: c :: d :: rest =>
    if a.isDigit ∧ b.isDigit ∧ c.isDigit ∧ d.isDigit then
      some (digitsToNat [a, b, c, d], rest)
    else none
  | _ => none

/-- A literal character of the format. -/
def parseLit (ch : Char) : List Char → Option (List Char)
  | c :: rest => if c = ch then some rest else none
  | [] => none

/-- A literal space in a `strptime` format matches `\s+`: at least one
whitespace character. -/
def parseWs1 : List Char → Option (List Char)
  | c :: rest => if pyWs c then some (rest.dropWhile pyWs) else none
  | [] => none

/-- The English month names `_strptime` compiles for `%B`. -/
def monthNamesFull : List (List Char × Nat) :=
  [("january".data, 1), ("february".data, 2), ("march".data, 3),
   ("april".data, 4), ("may".data, 5), ("june".data, 6), ("july".data, 7),
   ("august".data, 8), ("september".data, 9), ("october".data, 10),
   ("november".data, 11), ("december".data, 12)]

/-- The English abbreviated month names `_strptime` compiles for `%b`. -/
def monthNamesAbbr : List (List Char × Nat) :=
  [("jan".data, 1), ("feb".data, 2), ("mar".data, 3), ("apr".data, 4),
   ("may".data, 5), ("jun".data, 6), ("jul".data, 7), ("aug".data, 8),
   ("sep".data, 9), ("oct".data, 10), ("nov".data, 11), ("dec".data, 12)]

/-- Match one month name from `table` case-insensitively at the front of
the input (no table entry is a prefix of another, so the choice is
deterministic). -/
def parseMonthName (table : List (List Char × Nat)) (cs : List Char) :
    Option (Nat × List Char) :=
  match table with
  | [] => none
  | (name, k) :: rest =>
    if name.isPrefixOf (lowerStr cs) then some (k, cs.drop name.length)
    else parseMonthName rest cs

/-- Is `⟨y, m, d⟩` a date `datetime(y, m, d)` accepts?  (`m` and `d` are
already bounded by the `_strptime` regexes; `datetime` additionally
requires `y ≥ 1` and a day that exists in the month.) -/
def daysInMonth (y m : Nat) : Nat :=
  if m = 2 then
    if y % 4 = 0 ∧ (y % 100 ≠ 0 ∨ y % 400 = 0) then 29 else 28
  else if m = 4 ∨ m = 6 ∨ m = 9 ∨ m = 11 then 30
  else 31

def validYMD (v : YMD) : Bool :=
  decide (1 ≤ v.y ∧ 1 ≤ v.m ∧ v.m ≤ 12 ∧ 1 ≤ v.d ∧ v.d ≤ daysInMonth v.y v.m)

/-- Require the whole input consumed and the date valid: `strptime`
matches the full string and `datetime` validates the day. -/
def finishYMD (v : YMD) : List Char → Option YMD
  | [] => if validYMD v then some v else none
  | _ :: _ => none

/-- `"%B %d, %Y"` — `January 13, 2024`. -/
def fmtLongMDY (cs : List Char) : Option YMD := do
  let (m, r1) ← parseMonthName monthNamesFull cs
  let r2 ← parseWs1 r1
  let (d, r3) ← parseDay r2
  let r4 ← parseLit ',' r3
  let r5 ← parseWs1 r4
  let (y, r6) ← parseYear4 r5
  finishYMD ⟨y, m, d⟩ r6

/-- `"%m/%d/%Y"` — `01/13/2024`. -/
def fmtSlashMDY (cs : List Char) : Option YMD := do
  let (m, r1) ← parseMonthNum cs
  let r2 ← parseLit '/' r1
  let (d, r3) ← parseDay r2
  let r4 ← parseLit '/' r3
  let (y, r5) ← parseYear4 r4
  finishYMD ⟨y, m, d⟩ r5

/-- `"%Y-%m-%d"` — `2024-01-13`. -/
def fmtISO (cs : List Char) : Option YMD := do
  let (y, r1) ← parseYear4 cs
  let r2 ← parseLit '-' r1
  let (m, r3) ← parseMonthNum r2
  let r4 ← parseLit '-' r3
  let (d, r5) ← parseDay r4
  finishYMD ⟨y, m, d⟩ r5

/-- `"%d-%b-%Y"` — `13-Jan-2024`. -/
def fmtDashDbY (cs : List Char) : Option YMD := do
  let (d, r1) ← parseDay cs
  let r2 ← parseLit '-' r1
  let (m, r3) ← parseMonthName monthNamesAbbr r2
  let r4 ← parseLit '-' r3
  let (y, r5) ← parseYear4 r4
  finishYMD ⟨y, m, d⟩ r5

/-- `"%d/%m/%Y"` — `13/01/2024`. -/
def fmtSlashDMY (cs : List Char) : Option YMD := do
  let (d, r1) ← parseDay cs
  let r2 ← parseLit '/' r1
  let (m, r3) ← parseMonthNum r2
  let r4 ← parseLit '/' r3
  let (y, r5) ← parseYear4 r4
  finishYMD ⟨y, m, d⟩ r5

/-- `"%Y/%m/%d"` — `2024/01/13`. -/
def fmtSlashYMD (cs : List Char) : Option YMD := do
  let (y, r1) ← parseYear4 cs
  let r2 ← parseLit '/' r1
  let (m, r3) ← parseMonthNum r2
  let r4 ← parseLit '/' r3
  let (d, r5) ← parseDay r4
  finishYMD ⟨y, m, d⟩ r5

/-- The `date_formats` list of `parse_date_string`, in source order. -/
def dateFormats : List (List Char → Option YMD) :=
  [fmtLongMDY, fmtSlashMDY, fmtISO, fmtDashDbY, fmtSlashDMY, fmtSlashYMD]

/-- The `for fmt in date_formats` loop: first successful format wins. -/
def tryFormats : List (List Char → Option YMD) → List Char → Option YMD
  | [], _ => none
  | f :: fs, cs =>
    match f cs with
    | some v => some v
    | none => tryFormats fs cs

def digitChar (n : Nat) : Char := Char.ofNat (48 + n)

def pad2 (n : Nat) : List Char := [digitChar (n / 10 % 10), digitChar (n % 10)]

def pad4 (n : Nat) : List Char :=
  [digitChar (n / 1000 % 10), digitChar (n / 100 % 10),
   digitChar (n / 10 % 10), digitChar (n % 10)]

/-- `strftime("%Y-%m-%d")`. -/
def renderYMD (v : YMD) : String :=
  String.mk (pad4 v.y ++ '-' :: pad2 v.m ++ '-' :: pad2 v.d)

/-- `BaseParser.parse_date_string`: `None`/empty input yields `None`;
otherwise strip, try the six formats in order, render the first success
as `YYYY-MM-DD`. -/
def parse_date_string (cs : List Char) : Option String :=
  if cs = [] then none
  else (tryFormats dateFormats (pyStrip cs)).map renderYMD

/-! ## `DeliveryNoticeParser`

`_parse_page` scans the page's text lines (`page.extract_text().split('\n')`;
a page is embedded as that list of lines).  On a stripped line starting
with `CONTRACT:` it runs `_extract_contract_from_line`, and on success
looks ahead through the following lines — `range(i+1, min(i+20, len(lines)))`,
i.e. the next (up to) 19 lines — collecting the intent date, the `TOTAL:`
figures and the `MONTH TO DATE:` figure, stopping after a line starting
with `CONTRACT:` or `EXCHANGE:`.  The outer loop always advances by one
line (`i += 1`), which the structural recursion of `parse_page` mirrors. -/

/-- `re.search(r'(\d{2}/\d{2}/\d{4})', ...)`'s group shape at the front of
the input: exactly two digits, `/`, two digits, `/`, four digits. -/
def matchDateToken : List Char → Option (List Char)
  | a :: b :: s1 :: c :: d :: s2 :: e :: f :: g :: h :: _ =>
    if a.isDigit ∧ b.isDigit ∧ s1 = '/' ∧ c.isDigit ∧ d.isDigit ∧ s2 = '/' ∧
        e.isDigit ∧ f.isDigit ∧ g.isDigit ∧ h.isDigit then
      some [a, b, s1, c, d, s2, e, f, g, h]
    else none
  | _ => none

/-- The token shape `\d{2}/\d{2}/\d{4}`: exactly two digits, a slash,
two digits, a slash, four digits. -/
def isDateShape (cs : List Char) : Bool :=
  match cs with
  | [a, b, s1, c, d, s2, e, f, g, h] =>
    a.isDigit && b.isDigit && decide (s1 = '/') && c.isDigit && d.isDigit &&
      decide (s2 = '/') && e.isDigit && f.isDigit && g.isDigit && h.isDigit
  | _ => false

/-- `re.search(r'INTENT DATE:\s*(\d{2}/\d{2}/\d{4})', line)`: try each
start position left to right; where the literal `INTENT DATE:` matches,
skip the (maximal) whitespace run and try the date group.  (Backtracking
into `\s*` cannot help, because a digit is not whitespace.) -/
def intentSearch : List Char → Option (List Char)
  | [] => none
  | c :: rest =>
    if "INTENT DATE:".data.isPrefixOf (c :: rest) then
      match matchDateToken (((c :: rest).drop 12).dropWhile pyWs) with
      | some tok => some tok
      | none => intentSearch rest
    else intentSearch rest

/-- The maximal nonempty run of uppercase ASCII letters at the front:
`([A-Z]+)` (greedy; the following format element is whitespace or a
digit, so backtracking into the run cannot help). -/
def upperRun (cs : List Char) : Option (List Char × List Char) :=
  match cs.takeWhile Char.isUpper with
  | [] => none
  | run => some (run, cs.dropWhile Char.isUpper)

/-- `\s+`: at least one whitespace character, consumed greedily (no
following element of the contract patterns matches whitespace). -/
def wsRun1 (cs : List Char) : Option (List Char) :=
  match cs with
  | c :: rest => if pyWs c then some (rest.dropWhile pyWs) else none
  | [] => none

/-- `(\d{4})\s+`-style year: exactly four digits (a fifth digit makes the
regex fail, since `\s+` then cannot match and no alternative remains). -/
def yearRun (cs : List Char) : Option (List Char × List Char) :=
  match cs with
  | a :: b :: c :: d :: rest =>
    if a.isDigit ∧ b.isDigit ∧ c.isDigit ∧ d.isDigit then
      some ([a, b, c, d], rest)
    else none
  | _ => none

/-- The literal word `lit` at the front. -/
def litRun (lit : List Char) (cs : List Char) : Option (List Char) :=
  if lit.isPrefixOf cs then some (cs.drop lit.length) else none

/-- `(?:\d+\s+)?`: if a digit run starts here it must be followed by
whitespace (otherwise the whole pattern fails — the `[A-Z]+` that follows
cannot match a digit either); with no digit the group is skipped. -/
def optDigitsWs (cs : List Char) : Option (List Char) :=
  match cs with
  | c :: _ =>
    if c.isDigit then wsRun1 (cs.dropWhile Char.isDigit) else some cs
  | [] => some cs

/-- What `_extract_contract_from_line` returns on success. -/
structure ContractInfo where
  contract_month : String
  product : String
  full_text : String
deriving DecidableEq, Repr

/-- Python `str.title()` on a single uppercase word (the product group is
an `[A-Z]+` match): keep the first letter, lowercase the rest. -/
def titleWord (cs : List Char) : List Char :=
  match cs with
  | [] => []
  | c :: rest => c :: rest.map Char.toLower

/-- Pattern 1 anchored at the current position:
`CONTRACT:\s*([A-Z]+)\s+(\d{4})\s+COMEX\s+(?:\d+\s+)?([A-Z]+)\s+FUTURES`.
Returns `(month group, year group, product group)`. -/
def tryPattern1At (cs : List Char) : Option (List Char × List Char × List Char) := do
  let r0 ← litRun "CONTRACT:".data cs
  let r1 := r0.dropWhile pyWs
  let (month, r2) ← upperRun r1
  let r3 ← wsRun1 r2
  let (year, r4) ← yearRun r3
  let r5 ← wsRun1 r4
  let r6 ← litRun "COMEX".data r5
  let r7 ← wsRun1 r6
  let r8 ← optDigitsWs r7
  let (product, r9) ← upperRun r8
  let r10 ← wsRun1 r9
  let _ ← litRun "FUTURES".data r10
  return (month, year, product)

/-- Pattern 2 anchored at the current position:
`CONTRACT:\s*([A-Z]+)\s+(\d{4})\s+([A-Z]+)\s+FUTURES`. -/
def tryPattern2At (cs : List Char) : Option (List Char × List Char × List Char) := do
  let r0 ← litRun "CONTRACT:".data cs
  let r1 := r0.dropWhile pyWs
  let (month, r2) ← upperRun r1
  let r3 ← wsRun1 r2
  let (year, r4) ← yearRun r3
  let r5 ← wsRun1 r4
  let (product, r6) ← upperRun r5
  let r7 ← wsRun1 r6
  let _ ← litRun "FUTURES".data r7
  return (month, year, product)

/-- `re.search` for one of the contract patterns: try the anchored match
at each start position, left to right. -/
def searchContract (tryAt : List Char → Option (List Char × List Char × List Char)) :
    List Char → Option (List Char × List Char × List Char)
  | [] => none
  | c :: rest =>
    match tryAt (c :: rest) with
    | some r => some r
    | none => searchContract tryAt rest

/-- `DeliveryNoticeParser._extract_contract_from_line`: try pattern 1
(with `COMEX`), then pattern 2; build
`{contract_month: "MONTH YEAR", product: product.title(), full_text: line}`. -/
def extract_contract_from_line (line : List Char) : Option ContractInfo :=
  match searchContract tryPattern1At line with
  | some (month, year, product) =>
    some ⟨String.mk (month ++ ' ' :: year), String.mk (titleWord product),
      String.mk line⟩
  | none =>
    match searchContract tryPattern2At line with
    | some (month, year, product) =>
      some ⟨String.mk (month ++ ' ' :: year), String.mk (titleWord product),
        String.mk line⟩
    | none => none

/-- The lookahead's mutable state: `intent_date`, `daily_issued`,
`daily_stopped`, `cumulative`, all initialized to `None`. -/
structure BlockScan where
  intent_date : Option String := none
  daily_issued : Option Nat := none
  daily_stopped : Option Nat := none
  cumulative : Option Nat := none
deriving DecidableEq, Repr

def initScan : BlockScan := {}

/-- Does the stripped lookahead line end the block
(`next_line.startswith('CONTRACT:') or next_line.startswith('EXCHANGE:')`)? -/
def isBoundary (nl : List Char) : Bool :=
  "CONTRACT:".data.isPrefixOf nl || "EXCHANGE:".data.isPrefixOf nl

/-- The `INTENT DATE:` block of the lookahead loop body: on a successful
`re.search` the assignment happens even when `parse_date_string` returns
`None` (overwriting a previously found date with `None`). -/
def scanIntent (st : BlockScan) (nl : List Char) : BlockScan :=
  if containsSub nl "INTENT DATE:".data then
    match intentSearch nl with
    | some tok => { st with intent_date := parse_date_string tok }
    | none => st
  else st

/-- The `TOTAL:` block: two or more embedded integers set
`(daily_issued, daily_stopped)` from the first two; exactly one sets
`daily_stopped` alone. -/
def scanTotal (st : BlockScan) (nl : List Char) : BlockScan :=
  if "TOTAL:".data.isPrefixOf nl then
    match findAllNums nl with
    | n1 :: n2 :: _ => { st with daily_issued := some n1, daily_stopped := some n2 }
    | [n1] => { st with daily_stopped := some n1 }
    | [] => st
  else st

/-- The `MONTH TO DATE:` block: the last embedded integer becomes
`cumulative`. -/
def scanMTD (st : BlockScan) (nl : List Char) : BlockScan :=
  if containsSub nl "MONTH TO DATE:".data then
    match (findAllNums nl).getLast? with
    | some n => { st with cumulative := some n }
    | none => st
  else st

/-- One iteration of the lookahead loop body on the stripped line `nl`:
the three extraction blocks in source order. -/
def scanLine (st : BlockScan) (nl : List Char) : BlockScan :=
  scanMTD (scanTotal (scanIntent st nl) nl) nl

/-- The lookahead loop over the window's lines: process each stripped
line, and after a block-boundary line stop (the `break` comes after the
extraction steps, so the boundary line itself is still processed). -/
def scanBlock : List String → BlockScan → BlockScan
  | [], st => st
  | l :: rest, st =>
    let nl := pyStrip l.data
    let st2 := scanLine st nl
    if isBoundary nl then st2 else scanBlock rest st2

/-- One delivery record, as `_parse_page` builds it:
`daily_total` is `daily_stopped` (the `STOPPED` figure). -/
structure DeliveryRecord where
  intent_date : String
  product : String
  contract_month : String
  daily_total : Option Nat
  cumulative : Option Nat
  report_type : String
  source_file : String
deriving DecidableEq, Repr

/-- The work done at one line of the outer scan: if the stripped line
starts with `CONTRACT:` and a contract pattern matches, run the lookahead
over the next up-to-19 lines and emit a record when an intent date was
found and `daily_stopped` or `cumulative` was found. -/
def emitAt (source_file report_type : String) (l : String) (rest : List String) :
    Option DeliveryRecord :=
  let line := pyStrip l.data
  if "CONTRACT:".data.isPrefixOf line then
    match extract_contract_from_line line with
    | some info =>
      let st := scanBlock (rest.take 19) initScan
      match st.intent_date, st.daily_stopped.isSome || st.cumulative.isSome with
      | some d, true =>
        some ⟨d, info.product, info.contract_month, st.daily_stopped,
          st.cumulative, report_type, source_file⟩
      | _, _ => none
    | none => none
  else none

/-- `DeliveryNoticeParser._parse_page` over the page's lines: the outer
`while i < len(lines)` loop with its unconditional `i += 1`, so scanning
always resumes at the line after the current one. -/
def parse_page (source_file report_type : String) : List String → List DeliveryRecord
  | [] => []
  | l :: rest =>
    (emitAt source_file report_type l rest).toList ++
      parse_page source_file report_type rest

/-! ## `BaseParser.clean_numeric_string`

A cell is embedded as `Option String` (`none` is a missing/NaN cell, on
which `pd.isna` is true).  After the blank/sentinel checks the method
strips commas and spaces and calls `float(...)`; the embedding parses the
decimal and exponent literal forms.  Python's `float` also accepts
`inf`/`nan` and underscores between digits; no record any claim touches
contains such a cell, and here they yield `none`. -/

/-- `float(s)` on a sign + decimal-digits (+ optional fraction and
exponent) literal, as an exact rational. -/
def pyFloat (cs : List Char) : Option Rat :=
  let (sgn, r1) : Int × List Char :=
    match cs with
    | '+' :: t => (1, t)
    | '-' :: t => (-1, t)
    | _ => (1, cs)
  let intDigits := r1.takeWhile Char.isDigit
  let r2 := r1.dropWhile Char.isDigit
  let (fracDigits, r3) : List Char × List Char :=
    match r2 with
    | '.' :: t => (t.takeWhile Char.isDigit, t.dropWhile Char.isDigit)
    | _ => ([], r2)
  if intDigits = [] ∧ fracDigits = [] then none
  else
    let mantissa : Rat :=
      (sgn * (digitsToNat intDigits * 10 ^ fracDigits.length +
        digitsToNat fracDigits) : Int) / ((10 : Rat) ^ fracDigits.length)
    match r3 with
    | [] => some mantissa
    | e :: t =>
      if e = 'e' ∨ e = 'E' then
        let (esgn, t1) : Bool × List Char :=
          match t with
          | '+' :: u => (true, u)
          | '-' :: u => (false, u)
          | _ => (true, t)
        let eDigits := t1.takeWhile Char.isDigit
        if eDigits = [] ∨ t1.dropWhile Char.isDigit ≠ [] then none
        else if esgn then some (mantissa * (10 : Rat) ^ digitsToNat eDigits)
        else some (mantissa / (10 : Rat) ^ digitsToNat eDigits)
      else none

/-- `BaseParser.clean_numeric_string`: `None`/NaN/empty is `None`; the
sentinels `N/A`, `NA`, `-`, `NULL`, `NONE` (upper-cased comparison) are
`None`; otherwise strip, remove commas and spaces, and parse as a float,
with any failure yielding `None`. -/
def clean_numeric_string (v : Option String) : Option Rat :=
  match v with
  | none => none
  | some s =>
    if s.data = [] then none
    else
      let vs := pyStrip s.data
      if String.mk (upperStr vs) ∈ ["N/A", "NA", "-", "NULL", "NONE"] then none
      else pyFloat (vs.filter (fun c => ¬(c = ',' ∨ c = ' ')))

/-! ## `InventoryParser`

An inventory file is embedded after the CSV/Excel reader: a filename and
the grid of cells (`none` for a missing/NaN cell).  `pd.read_csv(...,
header=None, nrows=15)` is the first 15 raw rows; `pd.read_csv(...,
skiprows=k)` drops the first `k` raw rows and reads the next row as the
column header (an empty remainder raises, which the `except` clause turns
into trying the next offset; a missing header cell would be pandas'
`Unnamed: k`, embedded as `"Unnamed"` — no claim depends on it). -/

structure InvFile where
  name : String
  rawRows : List (List (Option String))

/-- `InventoryParser._detect_product`: filename tokens, `gold` before
`silver`. -/
def detect_product (filename : String) : String :=
  let l := lowerStr filename.data
  if containsSub l "gold".data then "Gold"
  else if containsSub l "silver".data then "Silver"
  else "Unknown"

/-- `' '.join(str(cell) for cell in row if pd.notna(cell))`. -/
def rowText : List (Option String) → List Char :=
  fun row => joinSpace (row.filterMap id)
where
  joinSpace : List String → List Char
    | [] => []
    | [s] => s.data
    | s :: rest => s.data ++ ' ' :: joinSpace rest

/-- `re.search(r':\s*(.+)', text)` followed by `.group(1).strip()`:
everything after the first colon, with leading whitespace skipped and the
capture cut at a newline, then stripped.  (When only whitespace follows
the colon, the regex either fails or captures whitespace that strips to
the empty string; both collapse to `""` here, and `parse_date_string`
rejects `""` either way.) -/
def afterColon : List Char → Option (List Char)
  | [] => none
  | c :: rest =>
    if c = ':' then
      some (pyStrip ((rest.dropWhile pyWs).takeWhile (fun c2 => ¬(c2 = '\n'))))
    else afterColon rest

/-- The metadata dict `_extract_metadata` builds (a key is present iff it
was assigned, and each assignment stores a truthy value). -/
structure InvMetadata where
  activity_date : Option String := none
  report_date : Option String := none
  unit : Option String := none
deriving DecidableEq, Repr

/-- The date a single header row contributes to `metadata['activity_date']`:
the parsed text after the row's first colon, provided the row mentions
`Activity Date` (case-insensitively). -/
def activityDateOfRow (row : List (Option String)) : Option String :=
  let t := rowText row
  if containsSub t "Activity Date".data ||
      containsSub (lowerStr t) "activity date".data then
    (afterColon t).bind parse_date_string
  else none

/-- Likewise for `Report Date`. -/
def reportDateOfRow (row : List (Option String)) : Option String :=
  let t := rowText row
  if containsSub t "Report Date".data ||
      containsSub (lowerStr t) "report date".data then
    (afterColon t).bind parse_date_string
  else none

/-- One iteration of `_extract_metadata`'s row loop: each successfully
parsed date overwrites the previous one; the unit marker sets
`unit = 'Troy Ounces'` when the row contains `unit`/`troy ounce`
(lower-cased) and the literal `Troy Ounce`. -/
def scanMetaRow (md : InvMetadata) (row : List (Option String)) : InvMetadata :=
  let t := rowText row
  let md1 :=
    match activityDateOfRow row with
    | some d => { md with activity_date := some d }
    | none => md
  let md2 :=
    match reportDateOfRow row with
    | some d => { md1 with report_date := some d }
    | none => md1
  if containsSub (lowerStr t) "unit".data ||
      containsSub (lowerStr t) "troy ounce".data then
    if containsSub t "Troy Ounce".data then { md2 with unit := some "Troy Ounces" }
    else md2
  else md2

/-- `InventoryParser._extract_metadata`: fold the row loop over the first
15 rows; an empty dict is returned as `None`. -/
def extract_metadata (f : InvFile) : Option InvMetadata :=
  let md := (f.rawRows.take 15).foldl scanMetaRow {}
  if md = {} then none else some md

/-- A pandas DataFrame after the I/O boundary: column names and data rows. -/
structure DataFrame where
  header : List String
  rows : List (List (Option String))
deriving Repr

/-- `pd.read_csv(file, skiprows=skip)` on the embedded grid. -/
def readAt (f : InvFile) (skip : Nat) : Option DataFrame :=
  match f.rawRows.drop skip with
  | [] => none
  | hdr :: rest =>
    some ⟨hdr.map (fun c => match c with | some s => s | none => "Unnamed"), rest⟩

/-- `'depository' in columns_lower or 'warehouse' in columns_lower`:
exact membership of the lower-cased (unstripped) column names. -/
def headerHit (df : DataFrame) : Bool :=
  let cl := df.header.map (fun c => String.mk (lowerStr c.data))
  cl.contains "depository" || cl.contains "warehouse"

/-- `df.columns = df.columns.str.strip()`. -/
def stripCols (df : DataFrame) : DataFrame :=
  { df with header := df.header.map (fun c => String.mk (pyStrip c.data)) }

/-- The `for skip in range(5, 15)` probe loop of `_read_data_table`. -/
def readLoop (f : InvFile) : List Nat → Option DataFrame
  | [] => none
  | k :: ks =>
    match readAt f k with
    | some df => if headerHit df then some (stripCols df) else readLoop f ks
    | none => readLoop f ks

/-- `InventoryParser._read_data_table`: probe skip offsets 5..14 in
order; return the first table whose header hits, with stripped column
names, or `None`. -/
def read_data_table (f : InvFile) : Option DataFrame :=
  readLoop f (List.range' 5 10)

/-- The `columns_map` dict of `_convert_to_records`. -/
structure ColMap where
  depository : Option String := none
  registered : Option String := none
  eligible : Option String := none
  total : Option String := none
deriving Repr

/-- The column-mapping loop: case-insensitive substring match on the
stripped lower-cased name, first matching rule per column, later columns
overwriting earlier ones for the same canonical field. -/
def buildColMap (cols : List String) : ColMap :=
  cols.foldl
    (fun m col =>
      let cl := pyStrip (lowerStr col.data)
      if containsSub cl "depository".data || containsSub cl "warehouse".data then
        { m with depository := some col }
      else if containsSub cl "registered".data then { m with registered := some col }
      else if containsSub cl "eligible".data then { m with eligible := some col }
      else if containsSub cl "total".data then { m with total := some col }
      else m)
    {}

/-- `row[col]` / `row.get(col)`: the cell under the first column named
`col`. -/
def cellAt (hdr : List String) (row : List (Option String)) (col : String) :
    Option String :=
  match hdr.findIdx? (fun h => h == col) with
  | some i => (row.get? i).bind id
  | none => none

/-- One inventory record, as `_convert_to_records` builds it. -/
structure InventoryRecord where
  activity_date : Option String
  product : String
  depository : String
  registered : Option Rat
  eligible : Option Rat
  total : Option Rat
  unit : String
  report_date : Option String
deriving DecidableEq, Repr

/-- `InventoryParser._convert_to_records`: build the column map; with no
depository column return `[]`; otherwise keep each row whose depository
cell is present, not blank, not a summary label (`Total`, `TOTAL`,
`Grand Total`) and not a repeated header (contains `depository`), and
build the record from the cleaned numeric cells and the metadata. -/
def convert_to_records (df : DataFrame) (product : String) (md : InvMetadata) :
    List InventoryRecord :=
  let cm := buildColMap df.header
  match cm.depository with
  | none => []
  | some dcol =>
    df.rows.filterMap (fun row =>
      match cellAt df.header row dcol with
      | none => none
      | some cell =>
        let dep := pyStrip cell.data
        if dep = [] ∨ String.mk dep ∈ ["Total", "TOTAL", "Grand Total"] then none
        else if containsSub (lowerStr dep) "depository".data then none
        else
          some
            { activity_date := md.activity_date
              product := product
              depository := String.mk dep
              registered :=
                match cm.registered with
                | some c => clean_numeric_string (cellAt df.header row c)
                | none => none
              eligible :=
                match cm.eligible with
                | some c => clean_numeric_string (cellAt df.header row c)
                | none => none
              total :=
                match cm.total with
                | some c => clean_numeric_string (cellAt df.header row c)
                | none => none
              unit := (md.unit).getD "Troy Ounces"
              report_date := md.report_date })

/-- `df is None or df.empty`. -/
def dfEmpty (df : DataFrame) : Bool :=
  df.rows.isEmpty || df.header.isEmpty

/-- `InventoryParser.parse_file`: detect the product, extract metadata
(no `activity_date` is fatal for the file: return `[]`), locate the data
table (`None`/empty yields `[]`), convert.  The surrounding
`try/except` returns `[]` on any error, so the embedding is a total
function into record lists. -/
def parse_file (f : InvFile) : List InventoryRecord :=
  let product := detect_product f.name
  match extract_metadata f with
  | none => []
  | some md =>
    match md.activity_date with
    | none => []
    | some _ =>
      match read_data_table f with
      | none => []
      | some df =>
        if dfEmpty df then [] else convert_to_records df product md

/-! ## `DatabaseManager`

The three tables are embedded as row lists; `INSERT OR REPLACE` on a
composite primary key deletes the conflicting row and appends the new
one, which `upsertRow` mirrors.  `cursor.rowcount` after `executemany`
is the number of statements executed.  (A row with a `NULL` in a
`NOT NULL` key column would make SQLite raise and the transaction roll
back, leaving the store unchanged — a case on which the replace-not-
duplicate properties hold trivially and which the model does not
distinguish.) -/

/-- `INSERT OR REPLACE` of one row keyed by `key`. -/
def upsertRow {α : Type} {κ : Type} [DecidableEq κ] (key : α → κ)
    (tbl : List α) (r : α) : List α :=
  tbl.filter (fun x => !decide (key x = key r)) ++ [r]

/-- `executemany` of `INSERT OR REPLACE` over a record list. -/
def upsertAll {α : Type} {κ : Type} [DecidableEq κ] (key : α → κ)
    (tbl : List α) (rs : List α) : List α :=
  rs.foldl (upsertRow key) tbl

/-- The composite primary key of `inventory_history`. -/
def invKey (r : InventoryRecord) : Option String × String × String :=
  (r.activity_date, r.product, r.depository)

/-- The composite primary key of `delivery_notices`. -/
def delKey (r : DeliveryRecord) : String × String × String × String :=
  (r.intent_date, r.product, r.contract_month, r.report_type)

/-- `DatabaseManager.insert_inventory_records`: empty input returns 0 and
touches nothing; otherwise upsert every record and return the rowcount. -/
def insert_inventory_records (tbl : List InventoryRecord)
    (records : List InventoryRecord) : Nat × List InventoryRecord :=
  if records.isEmpty then (0, tbl)
  else (records.length, upsertAll invKey tbl records)

/-- `DatabaseManager.insert_delivery_records`: same shape for
`delivery_notices`. -/
def insert_delivery_records (tbl : List DeliveryRecord)
    (records : List DeliveryRecord) : Nat × List DeliveryRecord :=
  if records.isEmpty then (0, tbl)
  else (records.length, upsertAll delKey tbl records)

/-- The arguments of one `log_file_processing` call; `now` is the call's
`datetime.now().isoformat()` timestamp, made explicit. -/
structure LedgerCall where
  file_path : String
  file_name : String
  file_type : String
  file_size : Int
  status : String
  records_inserted : Nat
  error_message : Option String
  now : String
deriving DecidableEq, Repr

/-- One row of `file_processing_log` (primary key `file_path`). -/
structure LedgerEntry where
  file_path : String
  file_name : String
  file_type : String
  file_size : Int
  status : String
  records_inserted : Nat
  error_message : Option String
  processed_at : String
deriving DecidableEq, Repr

/-- The row an `INSERT OR REPLACE INTO file_processing_log` call writes. -/
def ledgerEntryOf (c : LedgerCall) : LedgerEntry :=
  ⟨c.file_path, c.file_name, c.file_type, c.file_size, c.status,
    c.records_inserted, c.error_message, c.now⟩

/-- `DatabaseManager.log_file_processing`: insert-or-replace keyed on
`file_path`. -/
def log_file_processing (tbl : List LedgerEntry) (c : LedgerCall) :
    List LedgerEntry :=
  upsertRow LedgerEntry.file_path tbl (ledgerEntryOf c)

/-- A sequence of `log_file_processing` calls applied to the empty ledger. -/
def applyLedger (calls : List LedgerCall) : List LedgerEntry :=
  calls.foldl log_file_processing []

/-- `DatabaseManager.is_file_processed`:
`SELECT status FROM file_processing_log WHERE file_path = ? AND
status = 'success'` returned a row. -/
def is_file_processed (tbl : List LedgerEntry) (p : String) : Bool :=
  tbl.any (fun e => decide (e.file_path = p) && decide (e.status = "success"))

/-! ## Theorems: normalization primitives -/

theorem tryFormats_of_all_none (fs : List (List Char → Option YMD))
    (cs : List Char) (h : ∀ f ∈ fs, f cs = none) : tryFormats fs cs = none := by
  induction fs with
  | nil => rfl
  | cons f0 fs ih =>
    have h0 : f0 cs = none := h f0 (List.mem_cons_self _ _)
    simp only [tryFormats, h0]
    exact ih fun f hf => h f (List.mem_cons_of_mem _ hf)

theorem tryFormats_of_first (fs : List (List Char → Option YMD))
    (cs : List Char) : ∀ (i : Nat) (f : List Char → Option YMD) (v : YMD),
    fs.get? i = some f → f cs = some v →
    (∀ j g, j < i → fs.get? j = some g → g cs = none) →
    tryFormats fs cs = some v := by
  induction fs with
  | nil => intro i f v hget; simp at hget
  | cons f0 fs ih =>
    intro i f v hget hfv hbefore
    cases i with
    | zero =>
      simp only [List.get?] at hget
      cases hget
      simp only [tryFormats, hfv]
    | succ i =>
      have h0 : f0 cs = none :=
        hbefore 0 f0 (Nat.succ_pos _) rfl
      simp only [tryFormats, h0]
      exact ih i f v hget hfv fun j g hj hg =>
        hbefore (j + 1) g (Nat.succ_lt_succ hj) hg

/-- **C6.** `parse_date_string` tries exactly the six formats
long month-day-year, slash month/day/year, ISO year-month-day,
day-abbreviated-month-year, slash day/month/year, slash year/month/day in
that fixed order (positions 0..5 of `dateFormats`), returns the first
success rendered as `YYYY-MM-DD`, yields `none` for absent/blank input or
when all six formats fail, and in particular maps `"01/13/2024"` to
`"2024-01-13"`, the month/day/year format (position 1) winning over
day/month/year (position 4). -/
theorem date_format_priority_c6 :
    dateFormats.length = 6 ∧
    dateFormats.get? 1 = some fmtSlashMDY ∧
    dateFormats.get? 4 = some fmtSlashDMY ∧
    (∀ (cs : List Char) (i : Nat) (f : List Char → Option YMD) (v : YMD),
      cs ≠ [] → dateFormats.get? i = some f → f (pyStrip cs) = some v →
      (∀ j g, j < i → dateFormats.get? j = some g → g (pyStrip cs) = none) →
      parse_date_string cs = some (renderYMD v)) ∧
    (∀ cs : List Char, (∀ f ∈ dateFormats, f (pyStrip cs) = none) →
      parse_date_string cs = none) ∧
    parse_date_string "01/13/2024".data = some "2024-01-13" ∧
    fmtSlashMDY (pyStrip "01/13/2024".data) = some ⟨2024, 1, 13⟩ ∧
    parse_date_string [] = none ∧
    parse_date_string "   ".data = none := by
  refine ⟨rfl, rfl, rfl, ?_, ?_, by decide, by decide, rfl, by decide⟩
  · intro cs i f v hcs hget hfv hbefore
    unfold parse_date_string
    rw [if_neg hcs, tryFormats_of_first dateFormats (pyStrip cs) i f v hget hfv hbefore]
    rfl
  · intro cs hall
    unfold parse_date_string
    rcases Decidable.em (cs = []) with h | h
    · rw [if_pos h]
    · rw [if_neg h, tryFormats_of_all_none _ _ hall]
      rfl

/-- **C9.** Product detection from the inventory filename checks `gold`
before `silver`: any filename containing both substrings (lower-cased)
detects `Gold`, and a filename containing neither detects `Unknown`. -/
theorem detect_product_order_c9 :
    ∀ name : String,
    (containsSub (lowerStr name.data) "gold".data = true →
      containsSub (lowerStr name.data) "silver".data = true →
      detect_product name = "Gold") ∧
    (containsSub (lowerStr name.data) "gold".data = false →
      containsSub (lowerStr name.data) "silver".data = false →
      detect_product name = "Unknown") := by
  intro name
  constructor
  · intro hg _
    simp only [detect_product, hg, if_true]
  · intro hg hs
    simp only [detect_product, hg, hs, Bool.false_eq_true, if_false]

/-! ## Theorems: storage layer -/

section Upsert

variable {α κ : Type} [DecidableEq κ]

/-- Does some record of `rs` carry key `k`? -/
def hasKey (key : α → κ) (rs : List α) (k : κ) : Bool :=
  rs.any fun r => decide (key r = k)

theorem mem_upsertAll (key : α → κ) (rs : List α) :
    ∀ (t : List α) (x : α), x ∈ upsertAll key t rs → x ∈ t ∨ x ∈ rs := by
  induction rs with
  | nil => intro t x hx; exact Or.inl hx
  | cons r rs ih =>
    intro t x hx
    rcases ih (upsertRow key t r) x hx with h | h
    · unfold upsertRow at h
      rcases List.mem_append.mp h with h | h
      · exact Or.inl (List.mem_of_mem_filter h)
      · simp only [List.mem_singleton] at h
        exact Or.inr (h ▸ List.mem_cons_self _ _)
    · exact Or.inr (List.mem_cons_of_mem _ h)

theorem upsertAll_decomp (key : α → κ) (rs : List α) :
    ∀ t : List α, upsertAll key t rs =
      t.filter (fun x => !hasKey key rs (key x)) ++ upsertAll key [] rs := by
  induction rs with
  | nil =>
    intro t
    simp [upsertAll, hasKey]
  | cons r rs ih =>
    intro t
    have step : ∀ u : List α, upsertAll key u (r :: rs) =
        upsertAll key (upsertRow key u r) rs := fun _ => rfl
    rw [step t, ih (upsertRow key t r), step [], ih (upsertRow key [] r)]
    have hrow : upsertRow key [] r = [r] := rfl
    rw [hrow]
    unfold upsertRow
    rw [List.filter_append, List.append_assoc]
    congr 1
    rw [List.filter_filter]
    apply List.filter_congr
    intro x _
    simp only [hasKey, List.any_cons, Bool.not_or, Bool.and_comm]
    congr 1
    simp [eq_comm]

/-- Upserting one more row and then filtering for key `k`: the new row
wins when its key is `k`, and is invisible otherwise. -/
theorem filter_key_upsertRow (key : α → κ) (t : List α) (r : α) (k : κ) :
    (upsertRow key t r).filter (fun x => decide (key x = k)) =
      if key r = k then [r] else t.filter fun x => decide (key x = k) := by
  unfold upsertRow
  rw [List.filter_append, List.filter_filter]
  by_cases h : key r = k
  · rw [if_pos h]
    have h1 : t.filter (fun a => decide (key a = k) && !decide (key a = key r)) = [] := by
      rw [List.filter_eq_nil_iff]
      intro a _
      by_cases ha : key a = k
      · simp [ha, h.symm]
      · simp [ha]
    rw [h1]
    simp [h]
  · rw [if_neg h]
    have h1 : t.filter (fun a => decide (key a = k) && !decide (key a = key r)) =
        t.filter fun a => decide (key a = k) := by
      apply List.filter_congr
      intro a _
      by_cases ha : key a = k
      · have h2 : ¬k = key r := fun hh => h hh.symm
        simp [ha, h2]
      · simp [ha]
    rw [h1]
    simp [h]

/-- The rows of `upsertAll key t rs` carrying key `k`: the last record of
`rs` with that key, or the matching rows of `t` when `rs` has none —
insert-or-replace keeps exactly one row per occupied key. -/
theorem filter_key_upsertAll (key : α → κ) (rs : List α) :
    ∀ (t : List α) (k : κ),
      (upsertAll key t rs).filter (fun x => decide (key x = k)) =
        match (rs.filter fun r => decide (key r = k)).getLast? with
        | some r => [r]
        | none => t.filter fun x => decide (key x = k) := by
  induction rs using List.reverseRecOn with
  | nil => intro t k; rfl
  | append_singleton rs r ih =>
    intro t k
    have step : upsertAll key t (rs ++ [r]) =
        upsertRow key (upsertAll key t rs) r := by
      unfold upsertAll
      rw [List.foldl_append]
      rfl
    rw [step, filter_key_upsertRow, List.filter_append]
    by_cases h : key r = k
    · rw [if_pos h]
      have h1 : [r].filter (fun x => decide (key x = k)) = [r] := by simp [h]
      rw [h1, List.getLast?_append_of_ne_nil _ (by simp), List.getLast?_singleton]
    · rw [if_neg h, ih t k]
      have h1 : [r].filter (fun x => decide (key x = k)) = [] := by simp [h]
      rw [h1, List.append_nil]

theorem upsertAll_idem (key : α → κ) (rs t : List α) :
    upsertAll key (upsertAll key t rs) rs = upsertAll key t rs := by
  conv_lhs => rw [upsertAll_decomp key rs (upsertAll key t rs)]
  rw [upsertAll_decomp key rs t]
  rw [List.filter_append, List.filter_filter]
  have h1 : t.filter (fun a =>
      (!hasKey key rs (key a)) && !hasKey key rs (key a)) =
      t.filter fun a => !hasKey key rs (key a) :=
    List.filter_congr fun x _ => Bool.and_self _
  have h2 : (upsertAll key [] rs).filter
      (fun a => !hasKey key rs (key a)) = [] := by
    rw [List.filter_eq_nil_iff]
    intro x hx
    rcases mem_upsertAll key rs [] x hx with h | h
    · simp at h
    · have : hasKey key rs (key x) = true :=
        List.any_eq_true.mpr ⟨x, h, by simp⟩
      simp [this]
  rw [h1, h2, List.append_nil]

end Upsert

/-- **C2.** Upserting any inventory or delivery record list twice leaves
the stored table (hence its row count) identical to upserting it once:
`INSERT OR REPLACE` on the composite key replaces rather than
duplicates.  Upserting an empty list returns 0 and leaves the store
unchanged. -/
theorem upsert_idempotent_c2 :
    ∀ (ti rs : List InventoryRecord) (td ds : List DeliveryRecord),
    (insert_inventory_records (insert_inventory_records ti rs).2 rs).2 =
      (insert_inventory_records ti rs).2 ∧
    ((insert_inventory_records (insert_inventory_records ti rs).2 rs).2).length =
      ((insert_inventory_records ti rs).2).length ∧
    (insert_delivery_records (insert_delivery_records td ds).2 ds).2 =
      (insert_delivery_records td ds).2 ∧
    insert_inventory_records ti [] = (0, ti) ∧
    insert_delivery_records td [] = (0, td) := by
  intro ti rs td ds
  have hinv : (insert_inventory_records (insert_inventory_records ti rs).2 rs).2 =
      (insert_inventory_records ti rs).2 := by
    by_cases h : rs.isEmpty
    · simp [insert_inventory_records, h]
    · simp only [insert_inventory_records, h, Bool.false_eq_true, if_false]
      exact upsertAll_idem invKey rs ti
  have hdel : (insert_delivery_records (insert_delivery_records td ds).2 ds).2 =
      (insert_delivery_records td ds).2 := by
    by_cases h : ds.isEmpty
    · simp [insert_delivery_records, h]
    · simp only [insert_delivery_records, h, Bool.false_eq_true, if_false]
      exact upsertAll_idem delKey ds td
  exact ⟨hinv, congrArg List.length hinv, hdel, rfl, rfl⟩

theorem any_filter_eq {α : Type} (p q : α → Bool) (l : List α) :
    (l.filter p).any q = l.any fun x => p x && q x := by
  induction l with
  | nil => rfl
  | cons a l ih =>
    by_cases h : p a
    · rw [List.filter_cons_of_pos h]
      simp [List.any_cons, h, ih]
    · rw [List.filter_cons_of_neg h]
      simp only [List.any_cons, ih]
      simp [h]

/-- **C3.** After any sequence of `log_file_processing` calls the ledger
holds, for each path, exactly the row of the latest call for that path
(with its status, counts, error and timestamp); and `is_file_processed`
is true iff a ledger row with that exact path and status `success`
exists — equivalently, iff the latest call for the path had status
`success`. -/
theorem ledger_latest_row_c3 :
    ∀ (calls : List LedgerCall) (p : String),
    ((applyLedger calls).filter (fun e => decide (e.file_path = p)) =
      match (calls.filter fun c => decide (c.file_path = p)).getLast? with
      | some c => [ledgerEntryOf c]
      | none => []) ∧
    (is_file_processed (applyLedger calls) p = true ↔
      ∃ e ∈ applyLedger calls, e.file_path = p ∧ e.status = "success") ∧
    (is_file_processed (applyLedger calls) p = true ↔
      ∃ c, (calls.filter fun c => decide (c.file_path = p)).getLast? = some c ∧
        c.status = "success") := by
  intro calls p
  have happ : applyLedger calls =
      upsertAll LedgerEntry.file_path [] (calls.map ledgerEntryOf) := by
    unfold applyLedger upsertAll
    rw [List.foldl_map]
    rfl
  have hpart1 : (applyLedger calls).filter (fun e => decide (e.file_path = p)) =
      match (calls.filter fun c => decide (c.file_path = p)).getLast? with
      | some c => [ledgerEntryOf c]
      | none => [] := by
    rw [happ, filter_key_upsertAll]
    have hmapfilter :
        (calls.map ledgerEntryOf).filter
          (fun r => decide (LedgerEntry.file_path r = p)) =
        (calls.filter fun c => decide (c.file_path = p)).map ledgerEntryOf := by
      rw [List.filter_map]
      rfl
    rw [hmapfilter, List.getLast?_map]
    cases hl : (calls.filter fun c => decide (c.file_path = p)).getLast? <;>
      simp [hl]
  refine ⟨hpart1, ?_, ?_⟩
  · simp [is_file_processed, List.any_eq_true]
  · have hany : is_file_processed (applyLedger calls) p =
        ((applyLedger calls).filter fun e => decide (e.file_path = p)).any
          fun e => decide (e.status = "success") := by
      rw [any_filter_eq]
      rfl
    rw [hany, hpart1]
    cases hl : (calls.filter fun c => decide (c.file_path = p)).getLast? with
    | some c => simp [ledgerEntryOf]
    | none => simp

/-! ## Theorems: inventory extractor -/

theorem scanMetaRow_activity (md : InvMetadata) (row : List (Option String))
    (h : activityDateOfRow row = none) :
    (scanMetaRow md row).activity_date = md.activity_date := by
  unfold scanMetaRow
  rw [h]
  cases reportDateOfRow row <;>
    (dsimp only []) <;>
    split <;> (try split) <;> rfl

theorem foldl_scanMetaRow_activity (rows : List (List (Option String))) :
    ∀ md : InvMetadata, (∀ row ∈ rows, activityDateOfRow row = none) →
      (rows.foldl scanMetaRow md).activity_date = md.activity_date := by
  induction rows with
  | nil => intro md _; rfl
  | cons row rows ih =>
    intro md h
    have h0 : activityDateOfRow row = none := h row (List.mem_cons_self _ _)
    have hs : (List.foldl scanMetaRow (scanMetaRow md row) rows).activity_date =
        (scanMetaRow md row).activity_date :=
      ih (scanMetaRow md row) fun r hr => h r (List.mem_cons_of_mem _ hr)
    rw [List.foldl_cons, hs, scanMetaRow_activity md row h0]

/-- **C7.** An inventory file whose scanned header rows (the first 15 raw
rows) yield no parseable Activity Date fails for that file alone:
`parse_file` returns the empty record list (and, being a total function,
lets nothing escape to the caller). -/
theorem no_activity_date_fatal_c7 (f : InvFile)
    (h : ∀ row ∈ f.rawRows.take 15, activityDateOfRow row = none) :
    parse_file f = [] := by
  have hact : ((f.rawRows.take 15).foldl scanMetaRow {}).activity_date = none :=
    foldl_scanMetaRow_activity (f.rawRows.take 15) {} h
  unfold parse_file extract_metadata
  split
  · rfl
  · next md hmd =>
    have : md.activity_date = none := by
      by_cases he : (f.rawRows.take 15).foldl scanMetaRow {} = ({} : InvMetadata)
      · rw [if_pos he] at hmd
        exact absurd hmd (by simp)
      · rw [if_neg he] at hmd
        cases hmd
        exact hact
    rw [this]

theorem no_activity_date_fatal_c7_witness :
    parse_file
      { name := "Gold_Stocks.csv",
        rawRows := [[some "CME Group"], [some "Report Date: January 14, 2024"],
          [some "Depository", some "Total"], [some "ACME Vault", some "3,000"]] } =
      [] :=
  no_activity_date_fatal_c7 _ (by decide)

theorem readLoop_none (f : InvFile) (ks : List Nat)
    (h : ∀ k ∈ ks, ∀ df, readAt f k = some df → headerHit df = false) :
    readLoop f ks = none := by
  induction ks with
  | nil => rfl
  | cons k ks ih =>
    have htail : readLoop f ks = none :=
      ih fun j hj => h j (List.mem_cons_of_mem _ hj)
    cases hr : readAt f k with
    | none => simp [readLoop, hr, htail]
    | some df => simp [readLoop, hr, h k (List.mem_cons_self _ _) df hr, htail]

theorem readLoop_found (f : InvFile) (df : DataFrame) :
    ∀ (pre : List Nat) (k : Nat) (post : List Nat),
    (∀ j ∈ pre, ∀ dfj, readAt f j = some dfj → headerHit dfj = false) →
    readAt f k = some df → headerHit df = true →
    readLoop f (pre ++ k :: post) = some (stripCols df) := by
  intro pre
  induction pre with
  | nil =>
    intro k post _ hk hhit
    rw [List.nil_append]
    simp [readLoop, hk, hhit]
  | cons j pre ih =>
    intro k post hpre hk hhit
    have hj := hpre j (List.mem_cons_self _ _)
    have htail : readLoop f (pre ++ k :: post) = some (stripCols df) :=
      ih k post (fun i hi => hpre i (List.mem_cons_of_mem _ hi)) hk hhit
    rw [List.cons_append]
    cases hr : readAt f j with
    | none => simp [readLoop, hr, htail]
    | some dfj => simp [readLoop, hr, hj dfj hr, htail]

/-- **C8.** The inventory table locator probes skip offsets 5..14 in
increasing order and uses the first offset whose header contains a
column name matching `depository` or `warehouse`; when no offset in the
range succeeds, the table read yields `None` and extraction yields zero
records without raising. -/
theorem table_probe_c8 :
    (∀ (f : InvFile) (k : Nat) (df : DataFrame), 5 ≤ k → k < 15 →
      readAt f k = some df → headerHit df = true →
      (∀ j dfj, 5 ≤ j → j < k → readAt f j = some dfj → headerHit dfj = false) →
      read_data_table f = some (stripCols df)) ∧
    (∀ f : InvFile,
      (∀ k dfk, 5 ≤ k → k < 15 → readAt f k = some dfk → headerHit dfk = false) →
      read_data_table f = none ∧ parse_file f = []) := by
  constructor
  · intro f k df h5 h15 hk hhit hbefore
    unfold read_data_table
    have hsplit : List.range' 5 10 = List.range' 5 (k - 5) ++ k :: List.range' (k + 1) (14 - k) := by
      have h1 : List.range' 5 (k - 5) ++ List.range' (5 + 1 * (k - 5)) (10 - (k - 5)) =
          List.range' 5 ((10 - (k - 5)) + (k - 5)) := List.range'_append 5 (k - 5) (10 - (k - 5)) 1
      have h2 : 5 + 1 * (k - 5) = k := by omega
      have h3 : (10 - (k - 5)) + (k - 5) = 10 := by omega
      have h4 : 10 - (k - 5) = (14 - k) + 1 := by omega
      rw [h2, h3, h4] at h1
      rw [← h1, List.range'_succ]
    rw [hsplit]
    apply readLoop_found f df _ k _ _ hk hhit
    intro j hj dfj hr
    have hjlt : 5 ≤ j ∧ j < 5 + (k - 5) := List.mem_range'_1.mp hj
    exact hbefore j dfj hjlt.1 (by omega) hr
  · intro f h
    have hnone : read_data_table f = none := by
      unfold read_data_table
      apply readLoop_none
      intro k hk df hr
      have hb : 5 ≤ k ∧ k < 5 + 10 := List.mem_range'_1.mp hk
      exact h k df hb.1 (by omega) hr
    refine ⟨hnone, ?_⟩
    unfold parse_file
    split
    · rfl
    · split
      · rfl
      · rw [hnone]

/-! ## Theorems: delivery-notice extractor -/

theorem scanIntent_issued (st : BlockScan) (nl : List Char) :
    (scanIntent st nl).daily_issued = st.daily_issued ∧
    (scanIntent st nl).daily_stopped = st.daily_stopped ∧
    (scanIntent st nl).cumulative = st.cumulative := by
  unfold scanIntent
  split
  · split <;> exact ⟨rfl, rfl, rfl⟩
  · exact ⟨rfl, rfl, rfl⟩

theorem scanMTD_issued (st : BlockScan) (nl : List Char) :
    (scanMTD st nl).daily_issued = st.daily_issued ∧
    (scanMTD st nl).daily_stopped = st.daily_stopped := by
  unfold scanMTD
  split
  · split <;> exact ⟨rfl, rfl⟩
  · exact ⟨rfl, rfl⟩

/-- **C4.** The lookahead of a CONTRACT block collects only from the
(up to) 20 lines following the CONTRACT line; lines after a block
boundary (a line starting with `CONTRACT:` or `EXCHANGE:`) contribute
nothing; a `TOTAL:` line with two or more embedded integers sets
`(issued, stopped)` from its first two, with exactly one it sets
`stopped` alone, and a `MONTH TO DATE:` line's last embedded integer
becomes `cumulative`. -/
theorem lookahead_window_c4 :
    (∀ (source_file report_type l : String) (rest : List String),
      emitAt source_file report_type l rest =
        emitAt source_file report_type l (rest.take 20)) ∧
    (∀ (st : BlockScan) (pre : List String) (l : String) (post : List String),
      isBoundary (pyStrip l.data) = true →
      scanBlock (pre ++ l :: post) st = scanBlock (pre ++ [l]) st) ∧
    (∀ (st : BlockScan) (nl : List Char) (n1 n2 : Nat) (ns : List Nat),
      "TOTAL:".data.isPrefixOf nl = true → findAllNums nl = n1 :: n2 :: ns →
      (scanLine st nl).daily_issued = some n1 ∧
        (scanLine st nl).daily_stopped = some n2) ∧
    (∀ (st : BlockScan) (nl : List Char) (n1 : Nat),
      "TOTAL:".data.isPrefixOf nl = true → findAllNums nl = [n1] →
      (scanLine st nl).daily_stopped = some n1 ∧
        (scanLine st nl).daily_issued = st.daily_issued) ∧
    (∀ (st : BlockScan) (nl : List Char) (n : Nat),
      containsSub nl "MONTH TO DATE:".data = true →
      (findAllNums nl).getLast? = some n →
      (scanLine st nl).cumulative = some n) := by
  refine ⟨?_, ?_, ?_, ?_, ?_⟩
  · intro source_file report_type l rest
    have h : (rest.take 20).take 19 = rest.take 19 := by
      rw [List.take_take]
      norm_num
    unfold emitAt
    rw [h]
  · intro st pre l post hb
    induction pre generalizing st with
    | nil => simp [scanBlock, hb]
    | cons x pre ih =>
      by_cases hx : isBoundary (pyStrip x.data) <;>
        simp [scanBlock, hx, ih]
  · intro st nl n1 n2 ns hp hf
    unfold scanLine
    have htot : scanTotal (scanIntent st nl) nl =
        { scanIntent st nl with daily_issued := some n1, daily_stopped := some n2 } := by
      unfold scanTotal
      rw [hf]
      simp [hp]
    rw [htot]
    have hm := scanMTD_issued
      { scanIntent st nl with daily_issued := some n1, daily_stopped := some n2 } nl
    exact ⟨hm.1, hm.2⟩
  · intro st nl n1 hp hf
    unfold scanLine
    have htot : scanTotal (scanIntent st nl) nl =
        { scanIntent st nl with daily_stopped := some n1 } := by
      unfold scanTotal
      rw [hf]
      simp [hp]
    rw [htot]
    have hm := scanMTD_issued { scanIntent st nl with daily_stopped := some n1 } nl
    refine ⟨hm.2, ?_⟩
    rw [hm.1]
    exact (scanIntent_issued st nl).1
  · intro st nl n hc hl
    unfold scanLine scanMTD
    rw [hl]
    simp [hc]

/-- **C5.** Whether or not a CONTRACT line emitted a record, the outer
scan resumes at the line immediately after it (never after the lookahead
window); a CONTRACT block with no intent date in its window emits
nothing; and concretely, a valid CONTRACT line sitting inside the
previous block's window is still recognized and processed. -/
theorem scan_resume_c5 :
    (∀ (source_file report_type l : String) (rest : List String),
      parse_page source_file report_type (l :: rest) =
        (emitAt source_file report_type l rest).toList ++
          parse_page source_file report_type rest) ∧
    (∀ (source_file report_type l : String) (rest : List String),
      (scanBlock (rest.take 19) initScan).intent_date = none →
      emitAt source_file report_type l rest = none) ∧
    parse_page "f.pdf" "Daily"
      ["CONTRACT: JANUARY 2026 COMEX 100 GOLD FUTURES",
       "CONTRACT: FEBRUARY 2026 COMEX 5000 SILVER FUTURES",
       "INTENT DATE: 02/03/2026",
       "TOTAL: 7"] =
      [{ intent_date := "2026-02-03", product := "Silver",
         contract_month := "FEBRUARY 2026", daily_total := some 7,
         cumulative := none, report_type := "Daily", source_file := "f.pdf" }] := by
  refine ⟨fun _ _ _ _ => rfl, ?_, by decide⟩
  intro source_file report_type l rest h
  unfold emitAt
  dsimp only
  split
  · split
    · rw [h]
    · rfl
  · rfl

/-- **C1.** For a CONTRACT line matching one of the two contract
patterns, a DeliveryRecord is emitted iff an intent date was found in
the block's lookahead window and at least one of the stopped/cumulative
figures was found; an emitted record's `daily_total` is the stopped
figure (never the issued one) and its text fields come from the contract
match.  Scenario B of the spec evaluates to exactly the stated record. -/
theorem delivery_emit_iff_c1 (source_file report_type l : String)
    (rest : List String)
    (hstart : "CONTRACT:".data.isPrefixOf (pyStrip l.data) = true)
    (info : ContractInfo)
    (hinfo : extract_contract_from_line (pyStrip l.data) = some info) :
    ((emitAt source_file report_type l rest).isSome = true ↔
      ((scanBlock (rest.take 19) initScan).intent_date.isSome = true ∧
        ((scanBlock (rest.take 19) initScan).daily_stopped.isSome = true ∨
          (scanBlock (rest.take 19) initScan).cumulative.isSome = true))) ∧
    (∀ r, emitAt source_file report_type l rest = some r →
      r.daily_total = (scanBlock (rest.take 19) initScan).daily_stopped ∧
      r.cumulative = (scanBlock (rest.take 19) initScan).cumulative ∧
      r.product = info.product ∧
      r.contract_month = info.contract_month ∧
      r.intent_date ∈ (scanBlock (rest.take 19) initScan).intent_date) ∧
    parse_page "delivery_notice.pdf" "Daily"
      ["CONTRACT: JANUARY 2026 COMEX 100 GOLD FUTURES",
       "INTENT DATE: 01/12/2026", "TOTAL: 15 15", "MONTH TO DATE: 134"] =
      [{ intent_date := "2026-01-12", product := "Gold",
         contract_month := "JANUARY 2026", daily_total := some 15,
         cumulative := some 134, report_type := "Daily",
         source_file := "delivery_notice.pdf" }] := by
  have hemit : emitAt source_file report_type l rest =
      match (scanBlock (rest.take 19) initScan).intent_date,
        ((scanBlock (rest.take 19) initScan).daily_stopped.isSome ||
          (scanBlock (rest.take 19) initScan).cumulative.isSome) with
      | some d, true =>
        some ⟨d, info.product, info.contract_month,
          (scanBlock (rest.take 19) initScan).daily_stopped,
          (scanBlock (rest.take 19) initScan).cumulative, report_type,
          source_file⟩
      | _, _ => none := by
    unfold emitAt
    dsimp only
    rw [if_pos hstart, hinfo]
  refine ⟨?_, ?_, by decide⟩
  · rw [hemit]
    cases hd : (scanBlock (rest.take 19) initScan).intent_date with
    | none =>
      cases hb : ((scanBlock (rest.take 19) initScan).daily_stopped.isSome ||
          (scanBlock (rest.take 19) initScan).cumulative.isSome) <;> simp [hd]
    | some d =>
      cases hb : ((scanBlock (rest.take 19) initScan).daily_stopped.isSome ||
          (scanBlock (rest.take 19) initScan).cumulative.isSome) with
      | false =>
        have := Bool.or_eq_false_iff.mp hb
        simp [hd, this.1, this.2]
      | true =>
        have hor := (Bool.or_eq_true _ _).mp hb
        simp only [Option.isSome_some, true_and]
        constructor
        · intro _
          rcases hor with h | h
          · exact Or.inl h
          · exact Or.inr h
        · intro _
          simp
  · intro r hr
    rw [hemit] at hr
    cases hd : (scanBlock (rest.take 19) initScan).intent_date with
    | none => rw [hd] at hr; cases hr
    | some d =>
      rw [hd] at hr
      cases hb : ((scanBlock (rest.take 19) initScan).daily_stopped.isSome ||
          (scanBlock (rest.take 19) initScan).cumulative.isSome) with
      | false => rw [hb] at hr; cases hr
      | true =>
        rw [hb] at hr
        cases hr
        exact ⟨rfl, rfl, rfl, rfl, rfl⟩

theorem delivery_emit_iff_c1_witness :
    (emitAt "delivery_notice.pdf" "Daily"
      "CONTRACT: JANUARY 2026 COMEX 100 GOLD FUTURES"
      ["INTENT DATE: 01/12/2026", "TOTAL: 15 15", "MONTH TO DATE: 134"]).isSome =
      true := by
  have h := delivery_emit_iff_c1 "delivery_notice.pdf" "Daily"
    "CONTRACT: JANUARY 2026 COMEX 100 GOLD FUTURES"
    ["INTENT DATE: 01/12/2026", "TOTAL: 15 15", "MONTH TO DATE: 134"]
    (by decide)
    ⟨"JANUARY 2026", "Gold", "CONTRACT: JANUARY 2026 COMEX 100 GOLD FUTURES"⟩
    (by decide)
  exact h.1.mpr ⟨by decide, Or.inl (by decide)⟩

theorem containsSub_head (hay needle : List Char)
    (h : needle.isPrefixOf hay = true) : containsSub hay needle = true := by
  cases hay <;> simp [containsSub, h]

theorem containsSub_tail (c : Char) (hay needle : List Char)
    (h : containsSub hay needle = true) : containsSub (c :: hay) needle = true := by
  simp [containsSub, h]

theorem matchDateToken_spec (cs tok : List Char)
    (h : matchDateToken cs = some tok) :
    isDateShape tok = true ∧ ∃ rest, cs = tok ++ rest := by
  unfold matchDateToken at h
  split at h
  · next a b s1 c d s2 e f g h10 rest =>
    split at h
    · next hcond =>
      obtain ⟨h1, h2, h3, h4, h5, h6, h7, h8, h9, hA⟩ := hcond
      cases h
      exact ⟨by simp [isDateShape, h1, h2, h3, h4, h5, h6, h7, h8, h9, hA],
        rest, rfl⟩
    · cases h
  · cases h

theorem intentSearch_spec : ∀ nl tok : List Char, intentSearch nl = some tok →
    isDateShape tok = true ∧
    ∃ w, (∀ ch ∈ w, pyWs ch = true) ∧
      containsSub nl ("INTENT DATE:".data ++ (w ++ tok)) = true := by
  intro nl
  induction nl with
  | nil => intro tok h; cases h
  | cons c rest ih =>
    intro tok h
    unfold intentSearch at h
    by_cases hp : "INTENT DATE:".data.isPrefixOf (c :: rest) = true
    · rw [if_pos hp] at h
      cases hm : matchDateToken (((c :: rest).drop 12).dropWhile pyWs) with
      | some tok2 =>
        rw [hm] at h
        cases h
        obtain ⟨hshape, rest2, hdecomp⟩ := matchDateToken_spec _ _ hm
        obtain ⟨tail, htail⟩ := List.isPrefixOf_iff_prefix.mp hp
        have hdrop : (c :: rest).drop 12 = tail := by
          rw [← htail]
          exact List.drop_left "INTENT DATE:".data tail
        refine ⟨hshape, tail.takeWhile pyWs,
          fun ch hch => List.mem_takeWhile_imp hch, ?_⟩
        apply containsSub_head
        apply List.isPrefixOf_iff_prefix.mpr
        have htailsplit : tail = tail.takeWhile pyWs ++ (tok ++ rest2) := by
          rw [← hdecomp, ← hdrop]
          exact (List.takeWhile_append_dropWhile pyWs _).symm
        refine ⟨rest2, ?_⟩
        rw [List.append_assoc, List.append_assoc, ← htailsplit, htail]
      | none =>
        rw [hm] at h
        obtain ⟨hshape, w, hw, hcontains⟩ := ih tok h
        exact ⟨hshape, w, hw, containsSub_tail c rest _ hcontains⟩
    · rw [if_neg hp] at h
      obtain ⟨hshape, w, hw, hcontains⟩ := ih tok h
      exact ⟨hshape, w, hw, containsSub_tail c rest _ hcontains⟩

/-- **C10.** An intent date is recognized only when an `INTENT DATE:`
line carries, right after the marker and optional whitespace, a token of
exactly the shape two digits / two digits / four digits; the
single-digit-month line `INTENT DATE: 1/12/2026` sets no intent date,
so its CONTRACT block emits no record. -/
theorem intent_token_shape_c10 :
    (∀ nl tok : List Char, intentSearch nl = some tok →
      isDateShape tok = true ∧
      ∃ w, (∀ ch ∈ w, pyWs ch = true) ∧
        containsSub nl ("INTENT DATE:".data ++ (w ++ tok)) = true) ∧
    intentSearch "INTENT DATE: 1/12/2026".data = none ∧
    parse_page "notice.pdf" "Daily"
      ["CONTRACT: JANUARY 2026 COMEX 100 GOLD FUTURES",
       "INTENT DATE: 1/12/2026", "TOTAL: 15 15", "MONTH TO DATE: 134"] = [] :=
  ⟨intentSearch_spec, by decide, by decide⟩

end AutoCME
